import Mathlib

/-!
Shallow embedding of the manganext-backend ephemeral state layer:
the expiring response cache (routes/mangadex.js and siblings), the
per-IP sliding-window rate limiter, and the bounded discussion store
(comments router), together with theorems about the spec's claims.

Modelling conventions: clock readings (`Date.now()`) are natural
numbers in milliseconds; JS `now - t` on those readings is truncated
subtraction. JSON numbers in request bodies are rationals. A JS object
used as a string-keyed dictionary is an association list in insertion
order, matching `Object.keys` enumeration order. The `toISOString`
rendering of a comment's creation instant is kept as the raw clock
value, since no code inspects its textual form.
-/

namespace Manganext

/-! Section: Decimal rendering of ids

`Date.now().toString()` is modelled by `Nat.repr`. The claims about id
uniqueness need that this rendering is injective, which we prove via a
decimal parser that is a left inverse of `Nat.repr`. -/

/-- Numeric value of a decimal digit character. -/
def digitVal (c : Char) : Nat := c.toNat - ('0').toNat

/-- Parse a most-significant-first list of decimal digit characters. -/
def parseDigits (l : List Char) : Nat := l.foldl (fun a c => 10 * a + digitVal c) 0

theorem parseDigits_append (l : List Char) (c : Char) :
    parseDigits (l ++ [c]) = 10 * parseDigits l + digitVal c := by
  simp [parseDigits, List.foldl_append]

theorem digitVal_digitChar : ∀ d, d < 10 → digitVal (Nat.digitChar d) = d := by decide

theorem toDigitsCore_eq_append :
    ∀ (f n : Nat) (l : List Char),
      Nat.toDigitsCore 10 f n l = Nat.toDigitsCore 10 f n [] ++ l := by
  intro f
  induction f with
  | zero => intro n l; simp [Nat.toDigitsCore]
  | succ f ih =>
    intro n l
    simp only [Nat.toDigitsCore]
    by_cases h : n / 10 = 0
    · simp [h]
    · simp only [h, if_false]
      rw [ih (n / 10) [Nat.digitChar (n % 10)], ih (n / 10) (Nat.digitChar (n % 10) :: l)]
      simp

theorem parseDigits_toDigitsCore :
    ∀ (f n : Nat), n < f → parseDigits (Nat.toDigitsCore 10 f n []) = n := by
  intro f
  induction f with
  | zero => intro n h; omega
  | succ f ih =>
    intro n h
    simp only [Nat.toDigitsCore]
    by_cases hd : n / 10 = 0
    · simp only [hd, if_true]
      have hm : n % 10 < 10 := Nat.mod_lt _ (by omega)
      have h1 : parseDigits [Nat.digitChar (n % 10)] = n % 10 := by
        simp [parseDigits, digitVal_digitChar _ hm]
      rw [h1]
      omega
    · simp only [hd, if_false]
      rw [toDigitsCore_eq_append, parseDigits_append]
      have hlt : n / 10 < f := by
        have h1 : 0 < n := by
          rcases Nat.eq_zero_or_pos n with h0 | h0
          · exact absurd (by simp [h0]) hd
          · exact h0
        have := Nat.div_lt_self h1 (by omega : 1 < 10)
        omega
      rw [ih (n / 10) hlt]
      have hm : n % 10 < 10 := Nat.mod_lt _ (by omega)
      rw [digitVal_digitChar _ hm]
      omega

theorem parseDigits_repr (n : Nat) : parseDigits (Nat.repr n).toList = n := by
  show parseDigits (Nat.toDigitsCore 10 (n + 1) n []) = n
  exact parseDigits_toDigitsCore (n + 1) n (Nat.lt_succ_self n)

theorem natRepr_injective : Function.Injective Nat.repr := by
  intro m n h
  have h2 := congrArg (fun s => parseDigits s.toList) h
  simp only at h2
  rwa [parseDigits_repr, parseDigits_repr] at h2

/-! Section: Association lists

JS objects used as dictionaries (`comments`, `requestTracker`) and the
`Map` used by the caches, as insertion-ordered association lists. -/

/-- Value stored under a key, scanning in insertion order. -/
def assocFind? (l : List (String × β)) (k : String) : Option β :=
  match l.find? (fun e => e.1 == k) with
  | some e => some e.2
  | none => none

/-- Assignment `obj[k] = v`: overwrite in place if present, append if absent. -/
def assocSet (l : List (String × β)) (k : String) (v : β) : List (String × β) :=
  if l.any (fun e => e.1 == k) then l.map (fun e => if e.1 == k then (k, v) else e)
  else l ++ [(k, v)]

/-- Deletion `map.delete(k)`. -/
def assocDel (l : List (String × β)) (k : String) : List (String × β) :=
  l.filter (fun e => !(e.1 == k))

theorem find?_map_overwrite (l : List (String × β)) (k : String) (v : β)
    (h : l.any (fun e => e.1 == k) = true) :
    (l.map (fun e => if e.1 == k then (k, v) else e)).find? (fun e => e.1 == k) = some (k, v) := by
  induction l with
  | nil => simp at h
  | cons e l ih =>
    by_cases he : e.1 == k
    · rw [List.map_cons, if_pos he]
      exact List.find?_cons_of_pos _ (by simp)
    · simp only [List.any_cons, he, Bool.false_or] at h
      rw [List.map_cons, if_neg he, List.find?_cons_of_neg _ (by simpa using he)]
      exact ih h

theorem assocFind?_assocSet (l : List (String × β)) (k : String) (v : β) :
    assocFind? (assocSet l k v) k = some v := by
  unfold assocSet
  by_cases h : l.any (fun e => e.1 == k)
  · rw [if_pos h, assocFind?, find?_map_overwrite l k v h]
  · rw [if_neg h, assocFind?, List.find?_append]
    have hnone : l.find? (fun e => e.1 == k) = none := by
      rw [List.find?_eq_none]
      intro e he hk
      exact h (List.any_of_mem he hk)
    rw [hnone]
    simp

theorem mem_assocSet {l : List (String × β)} {k : String} {v : β} :
    ∀ e ∈ assocSet l k v, e = (k, v) ∨ e ∈ l := by
  intro e he
  unfold assocSet at he
  by_cases h : l.any (fun x => x.1 == k)
  · rw [if_pos h, List.mem_map] at he
    obtain ⟨a, ha, hfa⟩ := he
    by_cases hk : a.1 == k
    · left
      rw [if_pos hk] at hfa
      exact hfa.symm
    · right
      rw [if_neg hk] at hfa
      exact hfa ▸ ha
  · rw [if_neg h, List.mem_append, List.mem_singleton] at he
    tauto

/-! Section: Expiring cache (routes/mangadex.js lines 6-21; same shape in other routes) -/

/-- Cache ttl (`CACHE_DURATION`) of the mangadex route: twenty minutes. -/
def CACHE_DURATION : Nat := 1000 * 60 * 20

/-- Reader `getCache`: absent keys and entries older than the ttl read as `null`;
an expired entry is deleted on read. Returns the value and the cache
after the read. -/
def getCache (cache : List (String × α × Nat)) (key : String) (now : Nat) :
    Option α × List (String × α × Nat) :=
  match assocFind? cache key with
  | none => (none, cache)
  | some (v, ts) =>
    if CACHE_DURATION < now - ts then (none, assocDel cache key)
    else (some v, cache)

/-- Writer `setCache`: unconditionally store the value with the current clock. -/
def setCache (cache : List (String × α × Nat)) (key : String) (v : α) (now : Nat) :
    List (String × α × Nat) :=
  assocSet cache key (v, now)

/-! Section: Comments router configuration (part_001 lines 375-416) -/

def MAX_COMMENTS_PER_CHAPTER : Nat := 200
def MAX_REPLIES_PER_COMMENT : Nat := 50
def MAX_TEXT_LENGTH : Nat := 500
def MAX_USERNAME_LENGTH : Nat := 30
def RATE_LIMIT_WINDOW : Nat := 10000
def MAX_REQUESTS : Nat := 5

/-- The whitespace characters removed by `trim` at either end. -/
def isSpaceChar (c : Char) : Bool := c == ' ' || c == '\t' || c == '\n' || c == '\r'

/-- Trim whitespace from both ends of a character list. -/
def trimChars (l : List Char) : List Char :=
  ((l.dropWhile isSpaceChar).reverse.dropWhile isSpaceChar).reverse

/-- Sanitizer `cleanInput`: non-strings become empty; otherwise strip the angle
brackets, trim, and truncate to the maximum length, in that order. -/
def cleanInput : Option String → Nat → String
  | none, _ => ""
  | some str, maxLength =>
    String.mk ((trimChars (str.toList.filter (fun c => !(c == '<' || c == '>')))).take maxLength)

/-- Limiter `rateLimit` acting on one identity's recorded timestamps: drop the
stale ones, then either reject (at or above the cap) or record `now`
and admit. Returns the decision and the updated timestamp list. -/
def rateLimit (tracker : List Nat) (now : Nat) : Bool × List Nat :=
  let kept := tracker.filter (fun t => now - t < RATE_LIMIT_WINDOW)
  if MAX_REQUESTS ≤ kept.length then (false, kept)
  else (true, kept ++ [now])

/-- One reply as stored under a comment. -/
structure Reply where
  id : String
  username : String
  text : String
  timestamp : Nat
  likes : Nat
deriving DecidableEq

/-- One comment as stored in a chapter's queue. -/
structure Comment where
  id : String
  username : String
  text : String
  rating : Option ℚ
  timestamp : Nat
  likes : Nat
  replies : List Reply
deriving DecidableEq

/-- The queue-insertion slice of the POST comment handler (lines
463-481): evict at the back (`pop`) when at capacity, insert at the
front (`unshift`). -/
def insertComment (q : List Comment) (c : Comment) : List Comment :=
  let q' := if MAX_COMMENTS_PER_CHAPTER ≤ q.length then q.dropLast else q
  c :: q'

/-- The queue-insertion slice of the reply handler (lines 548-560):
evict at the front (`shift`) when at capacity, insert at the back
(`push`). -/
def insertReply (q : List Reply) (r : Reply) : List Reply :=
  let q' := if MAX_REPLIES_PER_COMMENT ≤ q.length then q.drop 1 else q
  q' ++ [r]

/-- The whole mutable state of the comments router. -/
structure ServerState where
  comments : List (String × List Comment)
  requestTracker : List (String × List Nat)
deriving DecidableEq

def initialState : ServerState := ⟨[], []⟩

/-- Key of a chapter's thread (lines 424, 457, 536): slug and chapter
joined by a hyphen. -/
def makeKey (mangaSlug chapterNumber : String) : String :=
  mangaSlug ++ ("-") ++ chapterNumber

/-- Entry of the trending response (lines 596-605). -/
structure TrendEntry where
  mangaSlug : String
  chapterNumber : String
  commentCount : Nat
  recentActivity : Option Nat
deriving DecidableEq

/-- Splitting `key.split("-")` on the underlying characters. -/
def splitDash : List Char → List (List Char)
  | [] => [[]]
  | c :: rest =>
    if c == '-' then [] :: splitDash rest
    else
      match splitDash rest with
      | [] => [[c]]
      | h :: t => (c :: h) :: t

/-- One mapped element of the trending computation. -/
def trendEntry (key : String) (q : List Comment) : TrendEntry :=
  let parts := splitDash key.toList
  { mangaSlug := String.mk (parts.headD [])
    chapterNumber := String.mk ((parts.drop 1).headD [])
    commentCount := q.length
    recentActivity := q.head?.map Comment.timestamp }

/-- Comparator of the trending sort: descending comment count. -/
def descByCount (a b : TrendEntry) : Prop := b.commentCount ≤ a.commentCount

instance : DecidableRel descByCount := fun a b =>
  inferInstanceAs (Decidable (b.commentCount ≤ a.commentCount))

instance : IsTotal TrendEntry descByCount :=
  ⟨fun a b => by unfold descByCount; exact Nat.le_total _ _⟩

instance : IsTrans TrendEntry descByCount :=
  ⟨fun _ _ _ h1 h2 => by unfold descByCount at *; exact Nat.le_trans h2 h1⟩

/-- GET /trending (lines 595-610): map every key to its entry, sort by
descending comment count (`Array.prototype.sort` is stable, as is this
insertion sort), keep the first ten. -/
def trending (s : List (String × List Comment)) : List TrendEntry :=
  ((s.map (fun e => trendEntry e.1 e.2)).insertionSort descByCount).take 10

/-- Responses of the comments router, by payload shape. -/
inductive Response where
  | okList : List Comment → Nat → Response
  | okComment : Comment → Response
  | okLikes : Nat → Response
  | okReply : Reply → Response
  | okDeleted : Response
  | okTrending : List TrendEntry → Response
  | badRequest : Response
  | tooManyRequests : Response
  | notFound : Response
deriving DecidableEq

/-- Body of POST comment: loosely typed JSON fields. -/
structure CommentRequest where
  username : Option String
  text : Option String
  rating : Option ℚ
deriving DecidableEq

/-- Body of POST reply. -/
structure ReplyRequest where
  username : Option String
  text : Option String
deriving DecidableEq

/-- Replace the first element satisfying the test, as the in-place
mutation of the object returned by `Array.prototype.find` does. -/
def updateFirst (p : α → Bool) (f : α → α) : List α → List α
  | [] => []
  | x :: xs => if p x then f x :: xs else x :: updateFirst p f xs

/-- GET /:mangaSlug/:chapterNumber (lines 422-430). -/
def getComments (s : ServerState) (mangaSlug chapterNumber : String) :
    Response × ServerState :=
  let key := makeKey mangaSlug chapterNumber
  let q := (assocFind? s.comments key).getD []
  (.okList q q.length, s)

/-- The comment object built by the POST handler (lines 468-479). -/
def mkNewComment (body : CommentRequest) (now : Nat) : Comment :=
  { id := Nat.repr now
    username := cleanInput body.username MAX_USERNAME_LENGTH
    text := cleanInput body.text MAX_TEXT_LENGTH
    rating :=
      match body.rating with
      | some r => if 1 ≤ r ∧ r ≤ 5 then some r else none
      | none => none
    timestamp := now
    likes := 0
    replies := [] }

/-- POST /:mangaSlug/:chapterNumber (lines 436-487). -/
def postComment (s : ServerState) (mangaSlug chapterNumber ip : String)
    (body : CommentRequest) (now : Nat) : Response × ServerState :=
  let tr := (assocFind? s.requestTracker ip).getD []
  let rl := rateLimit tr now
  let s1 : ServerState := { s with requestTracker := assocSet s.requestTracker ip rl.2 }
  if !rl.1 then (.tooManyRequests, s1)
  else
    let cleanUsername := cleanInput body.username MAX_USERNAME_LENGTH
    let cleanText := cleanInput body.text MAX_TEXT_LENGTH
    if cleanText == "" then (.badRequest, s1)
    else if cleanUsername == "" then (.badRequest, s1)
    else
      let key := makeKey mangaSlug chapterNumber
      let q := (assocFind? s1.comments key).getD []
      let newComment := mkNewComment body now
      (.okComment newComment,
        { s1 with comments := assocSet s1.comments key (insertComment q newComment) })

/-- POST .../:commentId/like (lines 493-513). -/
def likeComment (s : ServerState) (mangaSlug chapterNumber commentId : String) :
    Response × ServerState :=
  let key := makeKey mangaSlug chapterNumber
  match assocFind? s.comments key with
  | none => (.notFound, s)
  | some q =>
    match q.find? (fun c => c.id == commentId) with
    | none => (.notFound, s)
    | some c =>
      let q' := updateFirst (fun c => c.id == commentId) (fun c => { c with likes := c.likes + 1 }) q
      (.okLikes (c.likes + 1), { s with comments := assocSet s.comments key q' })

/-- The reply object built by the reply handler (lines 552-558). -/
def mkNewReply (body : ReplyRequest) (now : Nat) : Reply :=
  { id := Nat.repr now
    username := cleanInput body.username MAX_USERNAME_LENGTH
    text := cleanInput body.text MAX_TEXT_LENGTH
    timestamp := now
    likes := 0 }

/-- POST .../:commentId/reply (lines 519-566). -/
def postReply (s : ServerState) (mangaSlug chapterNumber commentId ip : String)
    (body : ReplyRequest) (now : Nat) : Response × ServerState :=
  let tr := (assocFind? s.requestTracker ip).getD []
  let rl := rateLimit tr now
  let s1 : ServerState := { s with requestTracker := assocSet s.requestTracker ip rl.2 }
  if !rl.1 then (.tooManyRequests, s1)
  else
    let cleanUsername := cleanInput body.username MAX_USERNAME_LENGTH
    let cleanText := cleanInput body.text MAX_TEXT_LENGTH
    if cleanText == "" || cleanUsername == "" then (.badRequest, s1)
    else
      let key := makeKey mangaSlug chapterNumber
      match assocFind? s1.comments key with
      | none => (.notFound, s1)
      | some q =>
        match q.find? (fun c => c.id == commentId) with
        | none => (.notFound, s1)
        | some _ =>
          let reply := mkNewReply body now
          let q' := updateFirst (fun c => c.id == commentId)
            (fun c => { c with replies := insertReply c.replies reply }) q
          (.okReply reply, { s1 with comments := assocSet s1.comments key q' })

/-- DELETE .../:commentId (lines 572-589): `findIndex` plus
`splice(index, 1)` removes the first comment with the given id. -/
def deleteComment (s : ServerState) (mangaSlug chapterNumber commentId : String) :
    Response × ServerState :=
  let key := makeKey mangaSlug chapterNumber
  match assocFind? s.comments key with
  | none => (.notFound, s)
  | some q =>
    if q.any (fun c => c.id == commentId) then
      (.okDeleted,
        { s with comments := assocSet s.comments key (q.eraseP (fun c => c.id == commentId)) })
    else (.notFound, s)

/-- GET /trending (lines 595-610): pure read of the store. -/
def getTrending (s : ServerState) : Response × ServerState :=
  (.okTrending (trending s.comments), s)

/-- One inbound request against the comments router. -/
inductive Op where
  | getComments (mangaSlug chapterNumber : String)
  | postComment (mangaSlug chapterNumber ip : String) (body : CommentRequest) (now : Nat)
  | likeComment (mangaSlug chapterNumber commentId : String)
  | postReply (mangaSlug chapterNumber commentId ip : String) (body : ReplyRequest) (now : Nat)
  | deleteComment (mangaSlug chapterNumber commentId : String)
  | getTrending
deriving DecidableEq

/-- Dispatch of one request. -/
def step (s : ServerState) : Op → Response × ServerState
  | .getComments a b => getComments s a b
  | .postComment a b ip body now => postComment s a b ip body now
  | .likeComment a b cid => likeComment s a b cid
  | .postReply a b cid ip body now => postReply s a b cid ip body now
  | .deleteComment a b cid => deleteComment s a b cid
  | .getTrending => getTrending s

/-- Run a request sequence from a given state. -/
def runFrom (s : ServerState) (ops : List Op) : ServerState :=
  ops.foldl (fun s op => (step s op).2) s

/-- Run a request sequence from the empty store. -/
def run (ops : List Op) : ServerState := runFrom initialState ops

/-- Decisions of a sequence of limiter calls for one identity, with the
recorded timestamps threaded through. -/
def rateLimitRun (tracker : List Nat) : List Nat → List Bool
  | [] => []
  | t :: ts =>
    let r := rateLimit tracker t
    r.1 :: rateLimitRun r.2 ts

/-- The capacity bounds of the discussion store: every thread holds at
most `MAX_COMMENTS_PER_CHAPTER` comments and every comment at most
`MAX_REPLIES_PER_COMMENT` replies. -/
def BoundsOK (s : ServerState) : Prop :=
  ∀ e ∈ s.comments, e.2.length ≤ MAX_COMMENTS_PER_CHAPTER ∧
    ∀ c ∈ e.2, c.replies.length ≤ MAX_REPLIES_PER_COMMENT

/-- Clock reading of a request, for the requests that read the clock. -/
def opNow : Op → Option Nat
  | .postComment _ _ _ _ now => some now
  | .postReply _ _ _ _ _ now => some now
  | _ => none

/-- The clock readings of the write requests are at least the given
bound and strictly increase along the sequence. -/
def ChronOps : Nat → List Op → Prop
  | _, [] => True
  | b, op :: ops =>
    match opNow op with
    | none => ChronOps b ops
    | some t => b ≤ t ∧ ChronOps (t + 1) ops

/-- Every comment id and reply id in the store is the decimal rendering
of a clock reading below the bound, and ids are pairwise distinct
within each comment queue and within each reply queue. -/
def IdsOK (bound : Nat) (s : ServerState) : Prop :=
  ∀ e ∈ s.comments,
    ((e.2.map Comment.id).Pairwise (· ≠ ·) ∧
      ∀ i ∈ e.2.map Comment.id, ∃ t, t < bound ∧ i = Nat.repr t) ∧
    ∀ c ∈ e.2,
      (c.replies.map Reply.id).Pairwise (· ≠ ·) ∧
      ∀ i ∈ c.replies.map Reply.id, ∃ t, t < bound ∧ i = Nat.repr t

/-- Ids are pairwise distinct within each comment queue and within each
reply queue (claim C6's property, without the clock bookkeeping). -/
def UniqueIds (s : ServerState) : Prop :=
  ∀ e ∈ s.comments,
    (e.2.map Comment.id).Pairwise (· ≠ ·) ∧
    ∀ c ∈ e.2, (c.replies.map Reply.id).Pairwise (· ≠ ·)

/-- State after the limiter has been consulted for `ip` at `now`:
whatever the decision, the identity's timestamps have been reassigned. -/
def afterLimiter (s : ServerState) (ip : String) (now : Nat) : ServerState :=
  let rl := rateLimit ((assocFind? s.requestTracker ip).getD []) now
  { s with requestTracker := assocSet s.requestTracker ip rl.2 }

/-! Section: Branch lemmas of the write handlers -/

theorem postComment_emptyText (s : ServerState) (m ch ip : String) (body : CommentRequest)
    (now : Nat)
    (h1 : (rateLimit ((assocFind? s.requestTracker ip).getD []) now).1 = true)
    (h2 : cleanInput body.text MAX_TEXT_LENGTH = "") :
    postComment s m ch ip body now = (.badRequest, afterLimiter s ip now) := by
  simp [postComment, afterLimiter, h1, h2]

theorem postComment_emptyUsername (s : ServerState) (m ch ip : String) (body : CommentRequest)
    (now : Nat)
    (h1 : (rateLimit ((assocFind? s.requestTracker ip).getD []) now).1 = true)
    (h2 : cleanInput body.text MAX_TEXT_LENGTH ≠ "")
    (h3 : cleanInput body.username MAX_USERNAME_LENGTH = "") :
    postComment s m ch ip body now = (.badRequest, afterLimiter s ip now) := by
  simp [postComment, afterLimiter, h1, h3, beq_eq_false_iff_ne.mpr h2]

theorem postComment_valid (s : ServerState) (m ch ip : String) (body : CommentRequest)
    (now : Nat)
    (h1 : (rateLimit ((assocFind? s.requestTracker ip).getD []) now).1 = true)
    (h2 : cleanInput body.text MAX_TEXT_LENGTH ≠ "")
    (h3 : cleanInput body.username MAX_USERNAME_LENGTH ≠ "") :
    postComment s m ch ip body now =
      (.okComment (mkNewComment body now),
        ⟨assocSet s.comments (makeKey m ch)
           (insertComment ((assocFind? s.comments (makeKey m ch)).getD [])
             (mkNewComment body now)),
         (afterLimiter s ip now).requestTracker⟩) := by
  simp [postComment, afterLimiter, h1, beq_eq_false_iff_ne.mpr h2, beq_eq_false_iff_ne.mpr h3]

theorem postReply_invalid (s : ServerState) (m ch cid ip : String) (body : ReplyRequest)
    (now : Nat)
    (h1 : (rateLimit ((assocFind? s.requestTracker ip).getD []) now).1 = true)
    (h2 : cleanInput body.text MAX_TEXT_LENGTH = "" ∨
          cleanInput body.username MAX_USERNAME_LENGTH = "") :
    postReply s m ch cid ip body now = (.badRequest, afterLimiter s ip now) := by
  rcases h2 with h2 | h2 <;> simp [postReply, afterLimiter, h1, h2]

theorem postComment_rejected (s : ServerState) (m ch ip : String) (body : CommentRequest)
    (now : Nat)
    (h1 : (rateLimit ((assocFind? s.requestTracker ip).getD []) now).1 = false) :
    postComment s m ch ip body now = (.tooManyRequests, afterLimiter s ip now) := by
  simp [postComment, afterLimiter, h1]

theorem postReply_rejected (s : ServerState) (m ch cid ip : String) (body : ReplyRequest)
    (now : Nat)
    (h1 : (rateLimit ((assocFind? s.requestTracker ip).getD []) now).1 = false) :
    postReply s m ch cid ip body now = (.tooManyRequests, afterLimiter s ip now) := by
  simp [postReply, afterLimiter, h1]

theorem postReply_keyMissing (s : ServerState) (m ch cid ip : String) (body : ReplyRequest)
    (now : Nat)
    (h1 : (rateLimit ((assocFind? s.requestTracker ip).getD []) now).1 = true)
    (h2 : cleanInput body.text MAX_TEXT_LENGTH ≠ "")
    (h3 : cleanInput body.username MAX_USERNAME_LENGTH ≠ "")
    (h4 : assocFind? s.comments (makeKey m ch) = none) :
    postReply s m ch cid ip body now = (.notFound, afterLimiter s ip now) := by
  simp [postReply, afterLimiter, h1, beq_eq_false_iff_ne.mpr h2, beq_eq_false_iff_ne.mpr h3, h4]

theorem postReply_commentMissing (s : ServerState) (m ch cid ip : String) (body : ReplyRequest)
    (now : Nat) (q : List Comment)
    (h1 : (rateLimit ((assocFind? s.requestTracker ip).getD []) now).1 = true)
    (h2 : cleanInput body.text MAX_TEXT_LENGTH ≠ "")
    (h3 : cleanInput body.username MAX_USERNAME_LENGTH ≠ "")
    (h4 : assocFind? s.comments (makeKey m ch) = some q)
    (h5 : q.find? (fun c => c.id == cid) = none) :
    postReply s m ch cid ip body now = (.notFound, afterLimiter s ip now) := by
  simp [postReply, afterLimiter, h1, beq_eq_false_iff_ne.mpr h2, beq_eq_false_iff_ne.mpr h3, h4, h5]

theorem postReply_valid (s : ServerState) (m ch cid ip : String) (body : ReplyRequest)
    (now : Nat) (q : List Comment) (c : Comment)
    (h1 : (rateLimit ((assocFind? s.requestTracker ip).getD []) now).1 = true)
    (h2 : cleanInput body.text MAX_TEXT_LENGTH ≠ "")
    (h3 : cleanInput body.username MAX_USERNAME_LENGTH ≠ "")
    (h4 : assocFind? s.comments (makeKey m ch) = some q)
    (h5 : q.find? (fun c => c.id == cid) = some c) :
    postReply s m ch cid ip body now =
      (.okReply (mkNewReply body now),
        ⟨assocSet s.comments (makeKey m ch)
           (updateFirst (fun c => c.id == cid)
             (fun c => { c with replies := insertReply c.replies (mkNewReply body now) }) q),
         (afterLimiter s ip now).requestTracker⟩) := by
  simp [postReply, afterLimiter, h1, beq_eq_false_iff_ne.mpr h2, beq_eq_false_iff_ne.mpr h3, h4, h5]

theorem likeComment_keyMissing (s : ServerState) (m ch cid : String)
    (hf : assocFind? s.comments (makeKey m ch) = none) :
    likeComment s m ch cid = (.notFound, s) := by
  simp [likeComment, hf]

theorem likeComment_commentMissing (s : ServerState) (m ch cid : String) (q : List Comment)
    (hf : assocFind? s.comments (makeKey m ch) = some q)
    (hc : q.find? (fun c => c.id == cid) = none) :
    likeComment s m ch cid = (.notFound, s) := by
  simp [likeComment, hf, hc]

theorem likeComment_found (s : ServerState) (m ch cid : String) (q : List Comment) (c : Comment)
    (hf : assocFind? s.comments (makeKey m ch) = some q)
    (hc : q.find? (fun c => c.id == cid) = some c) :
    likeComment s m ch cid =
      (.okLikes (c.likes + 1),
        ⟨assocSet s.comments (makeKey m ch)
           (updateFirst (fun c => c.id == cid) (fun c => { c with likes := c.likes + 1 }) q),
         s.requestTracker⟩) := by
  simp [likeComment, hf, hc]

theorem deleteComment_keyMissing (s : ServerState) (m ch cid : String)
    (hf : assocFind? s.comments (makeKey m ch) = none) :
    deleteComment s m ch cid = (.notFound, s) := by
  simp [deleteComment, hf]

theorem deleteComment_commentMissing (s : ServerState) (m ch cid : String) (q : List Comment)
    (hf : assocFind? s.comments (makeKey m ch) = some q)
    (ha : q.any (fun c => c.id == cid) = false) :
    deleteComment s m ch cid = (.notFound, s) := by
  simp [deleteComment, hf, ha]

theorem deleteComment_found (s : ServerState) (m ch cid : String) (q : List Comment)
    (hf : assocFind? s.comments (makeKey m ch) = some q)
    (ha : q.any (fun c => c.id == cid) = true) :
    deleteComment s m ch cid =
      (.okDeleted,
        ⟨assocSet s.comments (makeKey m ch) (q.eraseP (fun c => c.id == cid)),
         s.requestTracker⟩) := by
  simp [deleteComment, hf, ha]

/-! Section: Queue and store lemmas -/

theorem assocFind?_mem {l : List (String × β)} {k : String} {v : β}
    (h : assocFind? l k = some v) : ∃ k', (k', v) ∈ l := by
  unfold assocFind? at h
  cases hf : l.find? (fun e => e.1 == k) with
  | none => rw [hf] at h; cases h
  | some e =>
    rw [hf] at h
    cases h
    exact ⟨e.1, List.mem_of_find?_eq_some hf⟩

theorem length_insertComment_le {q : List Comment} (c : Comment)
    (h : q.length ≤ MAX_COMMENTS_PER_CHAPTER) :
    (insertComment q c).length ≤ MAX_COMMENTS_PER_CHAPTER := by
  unfold insertComment MAX_COMMENTS_PER_CHAPTER at *
  split
  · simp [List.length_dropLast]; omega
  · simp; omega

theorem mem_insertComment {q : List Comment} {c x : Comment}
    (h : x ∈ insertComment q c) : x = c ∨ x ∈ q := by
  unfold insertComment at h
  rcases List.mem_cons.mp h with rfl | h2
  · exact Or.inl rfl
  · right
    revert h2
    split
    · exact fun h2 => (List.dropLast_sublist q).mem h2
    · exact id

theorem length_insertReply_le {q : List Reply} (r : Reply)
    (h : q.length ≤ MAX_REPLIES_PER_COMMENT) :
    (insertReply q r).length ≤ MAX_REPLIES_PER_COMMENT := by
  unfold insertReply MAX_REPLIES_PER_COMMENT at *
  split
  · simp; omega
  · simp; omega

theorem mem_insertReply {q : List Reply} {r x : Reply}
    (h : x ∈ insertReply q r) : x = r ∨ x ∈ q := by
  unfold insertReply at h
  rcases List.mem_append.mp h with h2 | h2
  · right
    revert h2
    split
    · exact fun h2 => (List.drop_sublist 1 q).mem h2
    · exact id
  · exact Or.inl (List.mem_singleton.mp h2)

theorem length_updateFirst (p : α → Bool) (f : α → α) :
    ∀ l : List α, (updateFirst p f l).length = l.length := by
  intro l
  induction l with
  | nil => rfl
  | cons x xs ih =>
    unfold updateFirst
    split <;> simp [ih]

theorem mem_updateFirst {p : α → Bool} {f : α → α} :
    ∀ {l : List α} {x : α}, x ∈ updateFirst p f l → x ∈ l ∨ ∃ y ∈ l, x = f y := by
  intro l
  induction l with
  | nil => intro x h; cases h
  | cons a as ih =>
    intro x h
    unfold updateFirst at h
    by_cases hp : p a
    · rw [if_pos hp] at h
      rcases List.mem_cons.mp h with rfl | h2
      · exact Or.inr ⟨a, List.mem_cons_self .., rfl⟩
      · exact Or.inl (List.mem_cons_of_mem _ h2)
    · rw [if_neg hp] at h
      rcases List.mem_cons.mp h with rfl | h2
      · exact Or.inl (List.mem_cons_self ..)
      · rcases ih h2 with h3 | ⟨y, hy, rfl⟩
        · exact Or.inl (List.mem_cons_of_mem _ h3)
        · exact Or.inr ⟨y, List.mem_cons_of_mem _ hy, rfl⟩

theorem boundsOK_thread {s : ServerState} (h : BoundsOK s) (key : String) :
    ((assocFind? s.comments key).getD []).length ≤ MAX_COMMENTS_PER_CHAPTER ∧
    ∀ c ∈ (assocFind? s.comments key).getD [],
      c.replies.length ≤ MAX_REPLIES_PER_COMMENT := by
  cases hf : assocFind? s.comments key with
  | none => simp [MAX_COMMENTS_PER_CHAPTER]
  | some q =>
    obtain ⟨k', hk⟩ := assocFind?_mem hf
    simpa using h (k', q) hk

/-! Section: Preservation of the capacity bounds -/

theorem boundsOK_step (s : ServerState) (op : Op) (h : BoundsOK s) : BoundsOK (step s op).2 := by
  cases op with
  | getComments a b => exact h
  | getTrending => exact h
  | postComment m ch ip body now =>
    show BoundsOK (postComment s m ch ip body now).2
    by_cases h1 : (rateLimit ((assocFind? s.requestTracker ip).getD []) now).1 = true
    · by_cases h2 : cleanInput body.text MAX_TEXT_LENGTH = ""
      · rw [postComment_emptyText s m ch ip body now h1 h2]
        exact h
      · by_cases h3 : cleanInput body.username MAX_USERNAME_LENGTH = ""
        · rw [postComment_emptyUsername s m ch ip body now h1 h2 h3]
          exact h
        · rw [postComment_valid s m ch ip body now h1 h2 h3]
          intro e he
          rcases mem_assocSet _ he with rfl | he2
          · obtain ⟨hlen, hrep⟩ := boundsOK_thread h (makeKey m ch)
            refine ⟨length_insertComment_le _ hlen, ?_⟩
            intro c hc
            rcases mem_insertComment hc with rfl | hc2
            · simp [mkNewComment, MAX_REPLIES_PER_COMMENT]
            · exact hrep c hc2
          · exact h e he2
    · rw [postComment_rejected s m ch ip body now (by simpa using h1)]
      exact h
  | likeComment m ch cid =>
    show BoundsOK (likeComment s m ch cid).2
    cases hf : assocFind? s.comments (makeKey m ch) with
    | none =>
      rw [likeComment_keyMissing s m ch cid hf]
      exact h
    | some q =>
      cases hc : q.find? (fun c => c.id == cid) with
      | none =>
        rw [likeComment_commentMissing s m ch cid q hf hc]
        exact h
      | some c =>
        rw [likeComment_found s m ch cid q c hf hc]
        intro e he
        rcases mem_assocSet _ he with rfl | he2
        · obtain ⟨k', hk⟩ := assocFind?_mem hf
          obtain ⟨hlen, hrep⟩ := h (k', q) hk
          refine ⟨?_, ?_⟩
          · show (updateFirst _ _ q).length ≤ _
            rw [length_updateFirst]
            exact hlen
          · intro c' hc'
            rcases mem_updateFirst hc' with h3 | ⟨y, hy, rfl⟩
            · exact hrep c' h3
            · simpa using hrep y hy
        · exact h e he2
  | postReply m ch cid ip body now =>
    show BoundsOK (postReply s m ch cid ip body now).2
    by_cases h1 : (rateLimit ((assocFind? s.requestTracker ip).getD []) now).1 = true
    · by_cases hv : cleanInput body.text MAX_TEXT_LENGTH = "" ∨
          cleanInput body.username MAX_USERNAME_LENGTH = ""
      · rw [postReply_invalid s m ch cid ip body now h1 hv]
        exact h
      · push_neg at hv
        obtain ⟨h2, h3⟩ := hv
        cases hf : assocFind? s.comments (makeKey m ch) with
        | none =>
          rw [postReply_keyMissing s m ch cid ip body now h1 h2 h3 hf]
          exact h
        | some q =>
          cases hc : q.find? (fun c => c.id == cid) with
          | none =>
            rw [postReply_commentMissing s m ch cid ip body now q h1 h2 h3 hf hc]
            exact h
          | some c =>
            rw [postReply_valid s m ch cid ip body now q c h1 h2 h3 hf hc]
            intro e he
            rcases mem_assocSet _ he with rfl | he2
            · obtain ⟨k', hk⟩ := assocFind?_mem hf
              obtain ⟨hlen, hrep⟩ := h (k', q) hk
              refine ⟨?_, ?_⟩
              · show (updateFirst _ _ q).length ≤ _
                rw [length_updateFirst]
                exact hlen
              · intro c' hc'
                rcases mem_updateFirst hc' with h4 | ⟨y, hy, rfl⟩
                · exact hrep c' h4
                · exact length_insertReply_le _ (hrep y hy)
            · exact h e he2
    · rw [postReply_rejected s m ch cid ip body now (by simpa using h1)]
      exact h
  | deleteComment m ch cid =>
    show BoundsOK (deleteComment s m ch cid).2
    cases hf : assocFind? s.comments (makeKey m ch) with
    | none =>
      rw [deleteComment_keyMissing s m ch cid hf]
      exact h
    | some q =>
      by_cases ha : q.any (fun c => c.id == cid)
      · rw [deleteComment_found s m ch cid q hf ha]
        intro e he
        rcases mem_assocSet _ he with rfl | he2
        · obtain ⟨k', hk⟩ := assocFind?_mem hf
          obtain ⟨hlen, hrep⟩ := h (k', q) hk
          refine ⟨le_trans (List.Sublist.length_le (List.eraseP_sublist q)) hlen, ?_⟩
          intro c hc
          exact hrep c ((List.eraseP_sublist q).mem hc)
        · exact h e he2
      · rw [deleteComment_commentMissing s m ch cid q hf (by simpa using ha)]
        exact h

theorem boundsOK_runFrom : ∀ (ops : List Op) (s : ServerState),
    BoundsOK s → BoundsOK (runFrom s ops) := by
  intro ops
  induction ops with
  | nil => intro s h; exact h
  | cons op ops ih => intro s h; exact ih _ (boundsOK_step s op h)

/-- Claim C1: starting from the empty store, every sequence of discussion
operations keeps every per-key comment queue at length at most 200 and every
comment's reply queue at length at most 50; and a valid admitted insertion at
capacity succeeds by displacing the eviction-end element (back of the comment
queue, front of the reply queue) instead of being rejected. -/
theorem c1_capacity_bounds :
    (∀ ops : List Op, BoundsOK (run ops)) ∧
    (∀ (s : ServerState) (m ch ip : String) (body : CommentRequest) (now : Nat)
        (q : List Comment),
      assocFind? s.comments (makeKey m ch) = some q →
      q.length = MAX_COMMENTS_PER_CHAPTER →
      (rateLimit ((assocFind? s.requestTracker ip).getD []) now).1 = true →
      cleanInput body.text MAX_TEXT_LENGTH ≠ "" →
      cleanInput body.username MAX_USERNAME_LENGTH ≠ "" →
      (postComment s m ch ip body now).1 = Response.okComment (mkNewComment body now) ∧
      assocFind? (postComment s m ch ip body now).2.comments (makeKey m ch) =
        some (mkNewComment body now :: q.dropLast) ∧
      (mkNewComment body now :: q.dropLast).length = MAX_COMMENTS_PER_CHAPTER) ∧
    (∀ (s : ServerState) (m ch cid ip : String) (body : ReplyRequest) (now : Nat)
        (q : List Comment) (c : Comment),
      assocFind? s.comments (makeKey m ch) = some q →
      q.find? (fun c => c.id == cid) = some c →
      c.replies.length = MAX_REPLIES_PER_COMMENT →
      (rateLimit ((assocFind? s.requestTracker ip).getD []) now).1 = true →
      cleanInput body.text MAX_TEXT_LENGTH ≠ "" →
      cleanInput body.username MAX_USERNAME_LENGTH ≠ "" →
      (postReply s m ch cid ip body now).1 = Response.okReply (mkNewReply body now) ∧
      insertReply c.replies (mkNewReply body now) =
        c.replies.drop 1 ++ [mkNewReply body now] ∧
      (c.replies.drop 1 ++ [mkNewReply body now]).length = MAX_REPLIES_PER_COMMENT) := by
  refine ⟨?_, ?_, ?_⟩
  · intro ops
    exact boundsOK_runFrom ops initialState (fun e he => absurd he (List.not_mem_nil e))
  · intro s m ch ip body now q hq hlen h1 h2 h3
    rw [postComment_valid s m ch ip body now h1 h2 h3]
    have hins : insertComment ((assocFind? s.comments (makeKey m ch)).getD [])
        (mkNewComment body now) = mkNewComment body now :: q.dropLast := by
      rw [hq]
      unfold insertComment
      rw [if_pos (by simp [hlen])]
      rfl
    refine ⟨rfl, ?_, ?_⟩
    · show assocFind? (assocSet s.comments (makeKey m ch) _) (makeKey m ch) = _
      rw [assocFind?_assocSet, hins]
    · have h4 : q.dropLast.length = MAX_COMMENTS_PER_CHAPTER - 1 := by
        rw [List.length_dropLast, hlen]
      simp only [List.length_cons, h4]
      decide
  · intro s m ch cid ip body now q c hq hc hlen h1 h2 h3
    have hins : insertReply c.replies (mkNewReply body now) =
        c.replies.drop 1 ++ [mkNewReply body now] := by
      unfold insertReply
      rw [if_pos (by simp [hlen])]
    refine ⟨?_, hins, ?_⟩
    · rw [postReply_valid s m ch cid ip body now q c h1 h2 h3 hq hc]
    · have h4 : (c.replies.drop 1).length = MAX_REPLIES_PER_COMMENT - 1 := by
        rw [List.length_drop, hlen]
      simp only [List.length_append, List.length_singleton, h4]
      decide

/-- Witness for claim C1's capacity-displacement parts, at a thread of
exactly 200 comments and a comment of exactly 50 replies. -/
theorem c1_witness :
    ((postComment
        ⟨[(("a-1"), List.replicate 200 (⟨("1"), ("u"), ("t"), none, 1, 0, []⟩ : Comment))], []⟩
        ("a") ("1") ("ip") ⟨some ("u2"), some ("x"), none⟩ 5).1 =
      Response.okComment (mkNewComment ⟨some ("u2"), some ("x"), none⟩ 5)) ∧
    ((postReply
        ⟨[(("a-1"),
            [(⟨("1"), ("u"), ("t"), none, 1, 0,
                List.replicate 50 (⟨("2"), ("v"), ("w"), 2, 0⟩ : Reply)⟩ : Comment)])], []⟩
        ("a") ("1") ("1") ("ip") ⟨some ("u2"), some ("x")⟩ 5).1 =
      Response.okReply (mkNewReply ⟨some ("u2"), some ("x")⟩ 5)) := by
  constructor
  · exact (c1_capacity_bounds.2.1
      ⟨[(("a-1"), List.replicate 200 (⟨("1"), ("u"), ("t"), none, 1, 0, []⟩ : Comment))], []⟩
      ("a") ("1") ("ip") ⟨some ("u2"), some ("x"), none⟩ 5
      (List.replicate 200 (⟨("1"), ("u"), ("t"), none, 1, 0, []⟩ : Comment))
      rfl (by simp only [List.length_replicate]; rfl) rfl (by decide) (by decide)).1
  · exact (c1_capacity_bounds.2.2
      ⟨[(("a-1"),
          [(⟨("1"), ("u"), ("t"), none, 1, 0,
              List.replicate 50 (⟨("2"), ("v"), ("w"), 2, 0⟩ : Reply)⟩ : Comment)])], []⟩
      ("a") ("1") ("1") ("ip") ⟨some ("u2"), some ("x")⟩ 5
      [(⟨("1"), ("u"), ("t"), none, 1, 0,
          List.replicate 50 (⟨("2"), ("v"), ("w"), 2, 0⟩ : Reply)⟩ : Comment)]
      (⟨("1"), ("u"), ("t"), none, 1, 0,
          List.replicate 50 (⟨("2"), ("v"), ("w"), 2, 0⟩ : Reply)⟩ : Comment)
      rfl rfl (by simp only [List.length_replicate]; rfl) rfl (by decide) (by decide)).1

/-! Section: The sliding-window limiter -/

theorem length_filter_lt {l : List α} {p : α → Bool} {a : α}
    (ha : a ∈ l) (hpa : p a = false) : (l.filter p).length < l.length := by
  induction l with
  | nil => cases ha
  | cons x xs ih =>
    rcases List.mem_cons.mp ha with rfl | hmem
    · rw [List.filter_cons, hpa]
      exact Nat.lt_succ_of_le (List.length_filter_le p xs)
    · rw [List.filter_cons]
      by_cases hx : p x
      · simpa [hx] using ih hmem
      · simp only [hx, Bool.false_eq_true, if_false, List.length_cons]
        exact Nat.lt_succ_of_lt (ih hmem)

theorem rateLimitRun_in_window (lo : Nat) :
    ∀ (ts tracker : List Nat),
      (∀ t ∈ tracker, lo ≤ t ∧ t < lo + RATE_LIMIT_WINDOW) →
      (∀ t ∈ ts, lo ≤ t ∧ t < lo + RATE_LIMIT_WINDOW) →
      rateLimitRun tracker ts =
        (List.range ts.length).map (fun i => decide (tracker.length + i < MAX_REQUESTS)) := by
  intro ts
  induction ts with
  | nil => intro tracker _ _; rfl
  | cons t ts ih =>
    intro tracker htr hts
    have ht := hts t (List.mem_cons_self ..)
    have hts2 : ∀ x ∈ ts, lo ≤ x ∧ x < lo + RATE_LIMIT_WINDOW :=
      fun x hx => hts x (List.mem_cons_of_mem _ hx)
    have hfilter : tracker.filter (fun x => t - x < RATE_LIMIT_WINDOW) = tracker := by
      apply List.filter_eq_self.mpr
      intro x hx
      have h1 := htr x hx
      simp only [decide_eq_true_eq]
      omega
    simp only [rateLimitRun, rateLimit, hfilter]
    by_cases hc : MAX_REQUESTS ≤ tracker.length
    · rw [if_pos hc, ih tracker htr hts2, List.length_cons, List.range_succ_eq_map,
        List.map_cons, List.map_map]
      refine congrArg₂ _ ?_ ?_
      · symm
        simp only [Nat.add_zero, decide_eq_false_iff_not]
        omega
      · refine List.map_congr_left ?_
        intro i _
        simp only [Function.comp]
        refine decide_eq_decide.mpr ?_
        omega
    · rw [if_neg hc]
      have htr2 : ∀ x ∈ tracker ++ [t], lo ≤ x ∧ x < lo + RATE_LIMIT_WINDOW := by
        intro x hx
        rcases List.mem_append.mp hx with hx2 | hx2
        · exact htr x hx2
        · rw [List.mem_singleton] at hx2
          exact hx2 ▸ ht
      rw [ih (tracker ++ [t]) htr2 hts2, List.length_cons, List.range_succ_eq_map,
        List.map_cons, List.map_map]
      refine congrArg₂ _ ?_ ?_
      · symm
        simp only [Nat.add_zero, decide_eq_true_eq]
        omega
      · refine List.map_congr_left ?_
        intro i _
        simp only [Function.comp, List.length_append, List.length_singleton]
        refine decide_eq_decide.mpr ?_
        omega

/-- Claim C2: on each call the limiter drops every recorded timestamp older
than `now` minus the ten-second window, rejects without recording when at
least five timestamps remain, and otherwise records `now` and admits; from an
empty record, calls all lying inside one trailing window admit exactly the
first five and reject from the sixth on; and once the window has elapsed
since the oldest recorded call, an admission succeeds again. -/
theorem c2_rate_limiter :
    (∀ (tracker : List Nat) (now t : Nat), t ∈ tracker → t + RATE_LIMIT_WINDOW < now →
      t ∉ (rateLimit tracker now).2) ∧
    (∀ (tracker : List Nat) (now : Nat),
      MAX_REQUESTS ≤ (tracker.filter (fun t => now - t < RATE_LIMIT_WINDOW)).length →
      rateLimit tracker now = (false, tracker.filter (fun t => now - t < RATE_LIMIT_WINDOW))) ∧
    (∀ (tracker : List Nat) (now : Nat),
      (tracker.filter (fun t => now - t < RATE_LIMIT_WINDOW)).length < MAX_REQUESTS →
      rateLimit tracker now =
        (true, tracker.filter (fun t => now - t < RATE_LIMIT_WINDOW) ++ [now])) ∧
    (∀ (lo : Nat) (ts : List Nat), (∀ t ∈ ts, lo ≤ t ∧ t < lo + RATE_LIMIT_WINDOW) →
      rateLimitRun [] ts = (List.range ts.length).map (fun i => decide (i < MAX_REQUESTS))) ∧
    (∀ (tracker : List Nat) (m : Nat), m ∈ tracker → (∀ t ∈ tracker, m ≤ t) →
      tracker.length ≤ MAX_REQUESTS →
      (rateLimit tracker (m + RATE_LIMIT_WINDOW)).1 = true) := by
  refine ⟨?_, ?_, ?_, ?_, ?_⟩
  · intro tracker now t hmem hold
    simp only [rateLimit]
    have hdrop : t ∉ tracker.filter (fun x => now - x < RATE_LIMIT_WINDOW) := by
      intro hin
      have := List.of_mem_filter hin
      simp only [decide_eq_true_eq] at this
      omega
    split
    · exact hdrop
    · intro hin
      rcases List.mem_append.mp hin with hin2 | hin2
      · exact hdrop hin2
      · rw [List.mem_singleton] at hin2
        unfold RATE_LIMIT_WINDOW at hold
        omega
  · intro tracker now hge
    simp only [rateLimit]
    rw [if_pos hge]
  · intro tracker now hlt
    simp only [rateLimit]
    rw [if_neg (by omega)]
  · intro lo ts hts
    have h := rateLimitRun_in_window lo ts []
      (fun t ht => absurd ht (List.not_mem_nil t)) hts
    simpa using h
  · intro tracker m hm hmin hlen
    simp only [rateLimit]
    have hdrop : (tracker.filter
        (fun t => m + RATE_LIMIT_WINDOW - t < RATE_LIMIT_WINDOW)).length < tracker.length := by
      refine length_filter_lt hm ?_
      simp only [decide_eq_false_iff_not]
      omega
    rw [if_neg (by omega)]

/-- Witness for claim C2: six calls inside one window admit exactly five; the
limiter admits again exactly one window after the oldest recorded call. -/
theorem c2_witness :
    rateLimitRun [] [0, 1, 2, 3, 4, 5] = [true, true, true, true, true, false] ∧
    (rateLimit [0, 1, 2, 3, 4] (0 + RATE_LIMIT_WINDOW)).1 = true ∧
    rateLimit [3] 9000 = (true, [3, 9000]) := by
  refine ⟨?_, ?_, ?_⟩
  · exact (c2_rate_limiter.2.2.2.1 0 [0, 1, 2, 3, 4, 5] (by decide)).trans (by decide)
  · exact c2_rate_limiter.2.2.2.2 [0, 1, 2, 3, 4] 0 (by decide) (by decide) (by decide)
  · exact (c2_rate_limiter.2.2.1 [3] 9000 (by decide)).trans (by decide)

/-! Section: Eviction order of the bounded queues -/

theorem foldl_insertComment (cs : List Comment) :
    cs.foldl insertComment [] = cs.reverse.take MAX_COMMENTS_PER_CHAPTER := by
  have hM : MAX_COMMENTS_PER_CHAPTER = 200 := rfl
  induction cs using List.reverseRecOn with
  | nil => rfl
  | append_singleton cs c ih =>
    rw [List.foldl_append, List.foldl_cons, List.foldl_nil, ih, List.reverse_append,
      List.reverse_singleton, List.singleton_append]
    unfold insertComment
    by_cases hlen : MAX_COMMENTS_PER_CHAPTER ≤ cs.reverse.length
    · have hq : (cs.reverse.take MAX_COMMENTS_PER_CHAPTER).length = MAX_COMMENTS_PER_CHAPTER := by
        rw [List.length_take]
        omega
      rw [if_pos (by rw [hq])]
      have hdrop : (cs.reverse.take MAX_COMMENTS_PER_CHAPTER).dropLast =
          cs.reverse.take 199 := by
        rw [List.dropLast_eq_take, hq, List.take_take]
        norm_num [hM]
      have htake : (c :: cs.reverse).take MAX_COMMENTS_PER_CHAPTER =
          c :: cs.reverse.take 199 := by
        rw [show MAX_COMMENTS_PER_CHAPTER = 199 + 1 from rfl, List.take_succ_cons]
      rw [hdrop, htake]
    · push_neg at hlen
      rw [if_neg (by rw [List.length_take]; omega),
        List.take_of_length_le (le_of_lt hlen),
        List.take_of_length_le (by rw [List.length_cons]; omega)]

theorem foldl_insertReply (rs : List Reply) :
    rs.foldl insertReply [] = rs.drop (rs.length - MAX_REPLIES_PER_COMMENT) := by
  have hM : MAX_REPLIES_PER_COMMENT = 50 := rfl
  induction rs using List.reverseRecOn with
  | nil => rfl
  | append_singleton rs r ih =>
    rw [List.foldl_append, List.foldl_cons, List.foldl_nil, ih]
    unfold insertReply
    rw [List.length_append, List.length_singleton]
    by_cases hc : MAX_REPLIES_PER_COMMENT ≤ rs.length
    · rw [if_pos (by rw [List.length_drop]; omega), List.drop_drop,
        List.drop_append_of_le_length (by omega)]
      have harith : rs.length - MAX_REPLIES_PER_COMMENT + 1 =
          rs.length + 1 - MAX_REPLIES_PER_COMMENT := by omega
      rw [harith]
    · rw [if_neg (by rw [List.length_drop]; omega)]
      have h0 : rs.length - MAX_REPLIES_PER_COMMENT = 0 := by omega
      have h1 : rs.length + 1 - MAX_REPLIES_PER_COMMENT = 0 := by omega
      rw [h0, h1, List.drop_zero, List.drop_zero]

/-- Claim C3: iterated insertion through the comment configuration (insert at
front, evict at back) keeps exactly the 200 newest items, and through the
reply configuration (insert at back, evict at front) keeps exactly the 50
newest items — in both cases the evicted element is the oldest by insertion
order; in particular, after 200 insertions into an empty thread and one more,
the queue holds 200 comments and the first-inserted comment is gone. -/
theorem c3_eviction_oldest :
    (∀ cs : List Comment, cs.foldl insertComment [] =
      cs.reverse.take MAX_COMMENTS_PER_CHAPTER) ∧
    (∀ rs : List Reply, rs.foldl insertReply [] =
      rs.drop (rs.length - MAX_REPLIES_PER_COMMENT)) ∧
    (∀ (c : Comment) (cs : List Comment), cs.length = MAX_COMMENTS_PER_CHAPTER → c ∉ cs →
      ((c :: cs).foldl insertComment []).length = MAX_COMMENTS_PER_CHAPTER ∧
      c ∉ (c :: cs).foldl insertComment []) := by
  refine ⟨foldl_insertComment, foldl_insertReply, ?_⟩
  intro c cs hlen hnotin
  rw [foldl_insertComment, List.reverse_cons,
    List.take_append_of_le_length (by rw [List.length_reverse]; omega),
    List.take_of_length_le (by rw [List.length_reverse]; omega)]
  refine ⟨by rw [List.length_reverse]; omega, ?_⟩
  rw [List.mem_reverse]
  exact hnotin

/-- Witness for claim C3: a 201st insertion into a full thread keeps the
length at 200 and drops the first-inserted comment. -/
theorem c3_witness :
    (((⟨("x"), ("u"), ("t"), none, 201, 0, []⟩ : Comment) ::
        (List.range 200).map (fun i => ⟨Nat.repr i, ("u"), ("t"), none, i, 0, []⟩)).foldl
        insertComment []).length = MAX_COMMENTS_PER_CHAPTER ∧
    (⟨("x"), ("u"), ("t"), none, 201, 0, []⟩ : Comment) ∉
      (((⟨("x"), ("u"), ("t"), none, 201, 0, []⟩ : Comment) ::
        (List.range 200).map (fun i => ⟨Nat.repr i, ("u"), ("t"), none, i, 0, []⟩)).foldl
        insertComment []) := by
  refine c3_eviction_oldest.2.2
    (⟨("x"), ("u"), ("t"), none, 201, 0, []⟩ : Comment)
    ((List.range 200).map (fun i => ⟨Nat.repr i, ("u"), ("t"), none, i, 0, []⟩))
    (by simp [MAX_COMMENTS_PER_CHAPTER]) ?_
  intro hmem
  rw [List.mem_map] at hmem
  obtain ⟨i, hi, heq⟩ := hmem
  have := congrArg Comment.timestamp heq
  simp only at this
  rw [List.mem_range] at hi
  omega

/-! Section: Expiring cache expiry boundary -/

theorem mem_assocDel {l : List (String × β)} {k : String} :
    ∀ e ∈ assocDel l k, e.1 ≠ k := by
  intro e he
  unfold assocDel at he
  have := List.of_mem_filter he
  simpa using this

/-- Claim C4 counterexample: an entry read at age exactly the ttl is still
returned, although the claim allows visibility only while the age is
strictly below the ttl. -/
theorem c4_counterexample :
    (getCache (setCache ([] : List (String × Nat × Nat)) ("k") 7 0) ("k")
      CACHE_DURATION).1 = some 7 ∧
    ¬ (CACHE_DURATION - 0 < CACHE_DURATION) := by
  exact ⟨rfl, by decide⟩

/-- Claim C4 (amended): after `set`, `get` of the same key returns the value
while `now - writtenAt ≤ ttl` (the entry is visible up to and including age
exactly `ttl`), and returns absent — removing the entry — once
`now - writtenAt > ttl`. -/
theorem c4_cache_expiry (cache : List (String × Nat × Nat)) (k : String) (v : Nat)
    (t now : Nat) :
    (now - t ≤ CACHE_DURATION →
      getCache (setCache cache k v t) k now = (some v, setCache cache k v t)) ∧
    (CACHE_DURATION < now - t →
      (getCache (setCache cache k v t) k now).1 = none ∧
      ∀ e ∈ (getCache (setCache cache k v t) k now).2, e.1 ≠ k) := by
  have hfind : assocFind? (setCache cache k v t) k = some (v, t) :=
    assocFind?_assocSet cache k (v, t)
  constructor
  · intro hle
    simp only [getCache, hfind]
    rw [if_neg (by omega)]
  · intro hgt
    simp only [getCache, hfind]
    rw [if_pos hgt]
    exact ⟨rfl, mem_assocDel⟩

/-- Witness for claim C4's amended statement: a fresh entry is visible, and
one past the ttl it reads as absent. -/
theorem c4_witness :
    getCache (setCache ([] : List (String × Nat × Nat)) ("k") 7 0) ("k") 5 =
      (some 7, setCache ([] : List (String × Nat × Nat)) ("k") 7 0) ∧
    (getCache (setCache ([] : List (String × Nat × Nat)) ("k") 7 0) ("k")
      (CACHE_DURATION + 1)).1 = none := by
  exact ⟨(c4_cache_expiry [] ("k") 7 0 5).1 (by decide),
    ((c4_cache_expiry [] ("k") 7 0 (CACHE_DURATION + 1)).2 (by decide)).1⟩

/-! Section: Sanitization before validation, and the limiter cost of a rejected write -/

/-- Claim C5: `addComment` sanitizes the inputs (strip angle brackets, trim,
truncate to 30/500) and only then validates emptiness: an admitted request
whose text is empty after sanitization fails with HTTP 400 and leaves the
comment store untouched, while an admitted request whose text and username
are non-empty after sanitization is stored. -/
theorem c5_sanitize_then_validate :
    (∀ (s : ServerState) (m ch ip : String) (body : CommentRequest) (now : Nat),
      (rateLimit ((assocFind? s.requestTracker ip).getD []) now).1 = true →
      cleanInput body.text MAX_TEXT_LENGTH = "" →
      (postComment s m ch ip body now).1 = Response.badRequest ∧
      (postComment s m ch ip body now).2.comments = s.comments) ∧
    (∀ (s : ServerState) (m ch ip : String) (body : CommentRequest) (now : Nat),
      (rateLimit ((assocFind? s.requestTracker ip).getD []) now).1 = true →
      cleanInput body.text MAX_TEXT_LENGTH ≠ "" →
      cleanInput body.username MAX_USERNAME_LENGTH ≠ "" →
      (postComment s m ch ip body now).1 =
        Response.okComment (mkNewComment body now)) := by
  constructor
  · intro s m ch ip body now h1 h2
    rw [postComment_emptyText s m ch ip body now h1 h2]
    exact ⟨rfl, rfl⟩
  · intro s m ch ip body now h1 h2 h3
    rw [postComment_valid s m ch ip body now h1 h2 h3]

/-- Witness for claim C5: a text of only angle brackets and whitespace is
non-empty raw but empty after sanitization, so the post is rejected with the
store unchanged; a text that sanitizes to something non-empty is stored. -/
theorem c5_witness :
    (postComment initialState ("a") ("1") ("ip")
      ⟨some ("u"), some (" <> "), none⟩ 3).1 = Response.badRequest ∧
    (postComment initialState ("a") ("1") ("ip")
      ⟨some ("u"), some (" <> "), none⟩ 3).2.comments = [] ∧
    (postComment initialState ("a") ("1") ("ip")
      ⟨some ("u"), some ("<b>ok</b>"), none⟩ 3).1 =
      Response.okComment (mkNewComment ⟨some ("u"), some ("<b>ok</b>"), none⟩ 3) := by
  have h := c5_sanitize_then_validate.1 initialState ("a") ("1") ("ip")
    ⟨some ("u"), some (" <> "), none⟩ 3 rfl (by decide)
  refine ⟨h.1, h.2, ?_⟩
  exact c5_sanitize_then_validate.2 initialState ("a") ("1") ("ip")
    ⟨some ("u"), some ("<b>ok</b>"), none⟩ 3 rfl (by decide) (by decide)

/-- Claim C9: when an admitted `addComment` or `addReply` then fails
validation (empty text or username after sanitization), the limiter has
already recorded the call: the identity's stored timestamps become the
in-window ones plus `now`, so the rejected write still consumed one of the
five admission slots. -/
theorem c9_validation_consumes_slot :
    (∀ (s : ServerState) (m ch ip : String) (body : CommentRequest) (now : Nat),
      ((((assocFind? s.requestTracker ip).getD []).filter
        (fun t => now - t < RATE_LIMIT_WINDOW)).length < MAX_REQUESTS) →
      (cleanInput body.text MAX_TEXT_LENGTH = "" ∨
        (cleanInput body.text MAX_TEXT_LENGTH ≠ "" ∧
         cleanInput body.username MAX_USERNAME_LENGTH = "")) →
      (postComment s m ch ip body now).1 = Response.badRequest ∧
      assocFind? (postComment s m ch ip body now).2.requestTracker ip =
        some ((((assocFind? s.requestTracker ip).getD []).filter
          (fun t => now - t < RATE_LIMIT_WINDOW)) ++ [now])) ∧
    (∀ (s : ServerState) (m ch cid ip : String) (body : ReplyRequest) (now : Nat),
      ((((assocFind? s.requestTracker ip).getD []).filter
        (fun t => now - t < RATE_LIMIT_WINDOW)).length < MAX_REQUESTS) →
      (cleanInput body.text MAX_TEXT_LENGTH = "" ∨
        cleanInput body.username MAX_USERNAME_LENGTH = "") →
      (postReply s m ch cid ip body now).1 = Response.badRequest ∧
      assocFind? (postReply s m ch cid ip body now).2.requestTracker ip =
        some ((((assocFind? s.requestTracker ip).getD []).filter
          (fun t => now - t < RATE_LIMIT_WINDOW)) ++ [now])) := by
  constructor
  · intro s m ch ip body now hadm hv
    have hrl : rateLimit ((assocFind? s.requestTracker ip).getD []) now =
        (true, (((assocFind? s.requestTracker ip).getD []).filter
          (fun t => now - t < RATE_LIMIT_WINDOW)) ++ [now]) := by
      simp only [rateLimit]
      rw [if_neg (by omega)]
    have h1 : (rateLimit ((assocFind? s.requestTracker ip).getD []) now).1 = true := by
      rw [hrl]
    have hbad : postComment s m ch ip body now = (.badRequest, afterLimiter s ip now) := by
      rcases hv with h2 | ⟨h2, h3⟩
      · exact postComment_emptyText s m ch ip body now h1 h2
      · exact postComment_emptyUsername s m ch ip body now h1 h2 h3
    rw [hbad]
    refine ⟨rfl, ?_⟩
    show assocFind? (afterLimiter s ip now).requestTracker ip = _
    unfold afterLimiter
    rw [assocFind?_assocSet, hrl]
  · intro s m ch cid ip body now hadm hv
    have hrl : rateLimit ((assocFind? s.requestTracker ip).getD []) now =
        (true, (((assocFind? s.requestTracker ip).getD []).filter
          (fun t => now - t < RATE_LIMIT_WINDOW)) ++ [now]) := by
      simp only [rateLimit]
      rw [if_neg (by omega)]
    have h1 : (rateLimit ((assocFind? s.requestTracker ip).getD []) now).1 = true := by
      rw [hrl]
    rw [postReply_invalid s m ch cid ip body now h1 hv]
    refine ⟨rfl, ?_⟩
    show assocFind? (afterLimiter s ip now).requestTracker ip = _
    unfold afterLimiter
    rw [assocFind?_assocSet, hrl]

/-- Witness for claim C9: a comment and a reply with empty text are both
rejected with 400, yet the identity's tracker has recorded the call time. -/
theorem c9_witness :
    (postComment initialState ("a") ("1") ("ip") ⟨some ("u"), some (""), none⟩ 3).1 =
      Response.badRequest ∧
    assocFind? (postComment initialState ("a") ("1") ("ip")
      ⟨some ("u"), some (""), none⟩ 3).2.requestTracker ("ip") = some [3] ∧
    (postReply initialState ("a") ("1") ("9") ("ip") ⟨some ("u"), some ("")⟩ 4).1 =
      Response.badRequest ∧
    assocFind? (postReply initialState ("a") ("1") ("9") ("ip")
      ⟨some ("u"), some ("")⟩ 4).2.requestTracker ("ip") = some [4] := by
  have h1 := c9_validation_consumes_slot.1 initialState ("a") ("1") ("ip")
    ⟨some ("u"), some (""), none⟩ 3 (by decide) (Or.inl (by decide))
  have h2 := c9_validation_consumes_slot.2 initialState ("a") ("1") ("9") ("ip")
    ⟨some ("u"), some ("")⟩ 4 (by decide) (Or.inl (by decide))
  exact ⟨h1.1, h1.2, h2.1, h2.2⟩

/-! Section: Rating validation -/

/-- Claim C7 counterexample: the non-integer rating 5/2 lies in [1,5] and is
stored as supplied, not as absent, refuting "absent for every non-integer
numeric value". -/
theorem c7_counterexample :
    ((5 : ℚ)/2).den = 2 ∧
    (postComment initialState ("a") ("1") ("ip")
      ⟨some ("u"), some ("x"), some ((5 : ℚ)/2)⟩ 0).1 =
      Response.okComment (mkNewComment ⟨some ("u"), some ("x"), some ((5 : ℚ)/2)⟩ 0) ∧
    (mkNewComment ⟨some ("u"), some ("x"), some ((5 : ℚ)/2)⟩ 0).rating =
      some ((5 : ℚ)/2) := by
  refine ⟨by norm_num, rfl, ?_⟩
  show (if 1 ≤ (5 : ℚ)/2 ∧ (5 : ℚ)/2 ≤ 5 then some ((5 : ℚ)/2) else none) = some ((5 : ℚ)/2)
  rw [if_pos (by norm_num)]

/-- Claim C7 (amended): a stored comment's rating is the supplied rating
exactly when that rating is a number in the closed interval [1,5] —
integrality is not checked, so in-range non-integers are stored too — and is
absent for a missing or out-of-range rating. -/
theorem c7_rating_range (s : ServerState) (m ch ip : String) (body : CommentRequest)
    (now : Nat) (c : Comment)
    (h : (postComment s m ch ip body now).1 = Response.okComment c) :
    c.rating =
      match body.rating with
      | some r => if 1 ≤ r ∧ r ≤ 5 then some r else none
      | none => none := by
  by_cases h1 : (rateLimit ((assocFind? s.requestTracker ip).getD []) now).1 = true
  · by_cases h2 : cleanInput body.text MAX_TEXT_LENGTH = ""
    · rw [postComment_emptyText s m ch ip body now h1 h2] at h
      cases h
    · by_cases h3 : cleanInput body.username MAX_USERNAME_LENGTH = ""
      · rw [postComment_emptyUsername s m ch ip body now h1 h2 h3] at h
        cases h
      · rw [postComment_valid s m ch ip body now h1 h2 h3] at h
        have hc : c = mkNewComment body now := by
          cases h
          rfl
        rw [hc]
        rfl
  · rw [postComment_rejected s m ch ip body now (by simpa using h1)] at h
    cases h

/-- Witness for claim C7's amended statement: an integral in-range rating is
stored as supplied. -/
theorem c7_witness :
    (mkNewComment ⟨some ("u"), some ("x"), some (3 : ℚ)⟩ 0).rating = some (3 : ℚ) := by
  have h := c7_rating_range initialState ("a") ("1") ("ip")
    ⟨some ("u"), some ("x"), some (3 : ℚ)⟩ 0
    (mkNewComment ⟨some ("u"), some ("x"), some (3 : ℚ)⟩ 0) rfl
  rw [h]
  show (if 1 ≤ (3 : ℚ) ∧ (3 : ℚ) ≤ 5 then some (3 : ℚ) else none) = some (3 : ℚ)
  rw [if_pos (by norm_num)]

/-! Section: Trending key decomposition -/

theorem splitDash_ne_nil : ∀ l : List Char, splitDash l ≠ [] := by
  intro l
  cases l with
  | nil => simp [splitDash]
  | cons c rest =>
    unfold splitDash
    by_cases hc : c == '-'
    · simp [hc]
    · simp only [hc, Bool.false_eq_true, if_false]
      split <;> simp

theorem headD_splitDash : ∀ l : List Char,
    (splitDash l).headD [] = l.takeWhile (fun c => !(c == '-')) := by
  intro l
  induction l with
  | nil => rfl
  | cons c rest ih =>
    unfold splitDash
    by_cases hc : c == '-'
    · simp [hc, List.takeWhile_cons]
    · simp only [hc, Bool.false_eq_true, if_false, List.takeWhile_cons, Bool.not_false,
        if_true]
      cases hs : splitDash rest with
      | nil => exact absurd hs (splitDash_ne_nil rest)
      | cons h t =>
        rw [hs] at ih
        simp only [List.headD_cons] at ih
        simp [ih]

theorem takeWhile_append_of_mem_false {p : α → Bool} :
    ∀ (l1 l2 : List α), (∃ a ∈ l1, p a = false) →
      (l1 ++ l2).takeWhile p = l1.takeWhile p := by
  intro l1
  induction l1 with
  | nil =>
    intro l2 h
    obtain ⟨a, ha, _⟩ := h
    cases ha
  | cons x xs ih =>
    intro l2 h
    rw [List.cons_append, List.takeWhile_cons, List.takeWhile_cons]
    by_cases hx : p x
    · rw [if_pos hx, if_pos hx]
      obtain ⟨a, ha, hpa⟩ := h
      rcases List.mem_cons.mp ha with rfl | ha2
      · rw [hx] at hpa
        cases hpa
      · rw [ih l2 ⟨a, ha2, hpa⟩]
    · rw [if_neg hx, if_neg hx]

/-- Claim C10: the trending view splits each stored key on every hyphen, so
for a slug that itself contains a hyphen the reported `mangaSlug` is only the
part of the slug before its first hyphen and the reported `chapterNumber` is
the next hyphen-separated segment rather than the chapter number; composing
key construction with this decomposition is not a round trip. -/
theorem c10_split_not_roundtrip :
    (∀ (slug ch : String) (q : List Comment), ('-') ∈ slug.toList →
      (trendEntry (makeKey slug ch) q).mangaSlug =
        String.mk (slug.toList.takeWhile (fun c => !(c == '-')))) ∧
    ((trendEntry (makeKey ("attack-on-titan") ("5")) []).mangaSlug = ("attack") ∧
     (trendEntry (makeKey ("attack-on-titan") ("5")) []).chapterNumber = ("on") ∧
     (trendEntry (makeKey ("attack-on-titan") ("5")) []).chapterNumber ≠ ("5") ∧
     makeKey (trendEntry (makeKey ("attack-on-titan") ("5")) []).mangaSlug
         (trendEntry (makeKey ("attack-on-titan") ("5")) []).chapterNumber ≠
       makeKey ("attack-on-titan") ("5")) := by
  constructor
  · intro slug ch q hdash
    show String.mk ((splitDash (makeKey slug ch).toList).headD []) = _
    rw [headD_splitDash]
    congr 1
    have hkey : (makeKey slug ch).toList = slug.toList ++ (('-') :: ch.toList) := by
      show (slug ++ ("-") ++ ch).data = slug.data ++ (('-') :: ch.data)
      rw [String.data_append, String.data_append, List.append_assoc]
      rfl
    rw [hkey]
    rw [show ('-') :: ch.toList = [('-')] ++ ch.toList from rfl, ← List.append_assoc]
    rw [takeWhile_append_of_mem_false (slug.toList ++ [('-')]) ch.toList
      ⟨('-'), by simp, by simp⟩]
    rw [takeWhile_append_of_mem_false slug.toList [('-')] ⟨('-'), hdash, by simp⟩]
  · exact ⟨rfl, rfl, by decide, by decide⟩

/-- Witness for claim C10's general part at the hyphenated slug of the
scenario. -/
theorem c10_witness :
    (trendEntry (makeKey ("attack-on-titan") ("5")) []).mangaSlug =
      String.mk (("attack-on-titan").toList.takeWhile (fun c => !(c == '-'))) := by
  exact c10_split_not_roundtrip.1 ("attack-on-titan") ("5") [] (by decide)

/-! Section: Trending ranking -/

/-- Claim C8: the trending query ranks the stored keys by descending comment
count, truncated to the top ten, and does not mutate the store; over three
keys with comment counts 5, 50 and 1 the counts come back ordered 50, 5, 1. -/
theorem c8_trending_ranking :
    (∀ s : List (String × List Comment),
      ((trending s).map TrendEntry.commentCount).Sorted (· ≥ ·) ∧
      (trending s).length ≤ 10) ∧
    (∀ st : ServerState, (getTrending st).2 = st ∧
      (getTrending st).1 = Response.okTrending (trending st.comments)) ∧
    (∀ (k1 k2 k3 : String) (q1 q2 q3 : List Comment),
      q1.length = 5 → q2.length = 50 → q3.length = 1 →
      (trending [(k1, q1), (k2, q2), (k3, q3)]).map TrendEntry.commentCount =
        [50, 5, 1]) := by
  refine ⟨?_, ?_, ?_⟩
  · intro s
    constructor
    · have h1 : (List.insertionSort descByCount
          (s.map (fun e => trendEntry e.1 e.2))).Sorted descByCount :=
        List.sorted_insertionSort descByCount _
      have h2 : (trending s).Sorted descByCount :=
        List.Pairwise.sublist (List.take_sublist 10 _) h1
      rw [List.Sorted, List.pairwise_map]
      exact h2.imp (fun h => h)
    · unfold trending
      have := List.length_take_le 10
        ((s.map (fun e => trendEntry e.1 e.2)).insertionSort descByCount)
      omega
  · intro st
    exact ⟨rfl, rfl⟩
  · intro k1 k2 k3 q1 q2 q3 h1 h2 h3
    simp [trending, trendEntry, List.insertionSort, List.orderedInsert, descByCount,
      h1, h2, h3]

/-- Witness for claim C8's scenario with concrete threads of lengths 5, 50
and 1. -/
theorem c8_witness :
    (trending [(("a-1"), List.replicate 5 (⟨("1"), ("u"), ("t"), none, 1, 0, []⟩ : Comment)),
               (("b-2"), List.replicate 50 (⟨("2"), ("u"), ("t"), none, 2, 0, []⟩ : Comment)),
               (("c-3"), List.replicate 1 (⟨("3"), ("u"), ("t"), none, 3, 0, []⟩ : Comment))]).map
      TrendEntry.commentCount = [50, 5, 1] := by
  exact c8_trending_ranking.2.2 ("a-1") ("b-2") ("c-3") _ _ _
    (List.length_replicate 5 _) (List.length_replicate 50 _) (List.length_replicate 1 _)

/-! Section: Id uniqueness -/

/-- Claim C6 counterexample: two comments posted to the same chapter in the
same millisecond (`Date.now()` returning 5 twice) are distinct queue entries
(different texts) with the same id "5". -/
theorem c6_counterexample :
    ¬ UniqueIds (run
        [Op.postComment ("a") ("1") ("ip") ⟨some ("u"), some ("x"), none⟩ 5,
         Op.postComment ("a") ("1") ("ip") ⟨some ("u"), some ("y"), none⟩ 5]) := by
  intro h
  have h2 := (h (("a-1"),
      [⟨("5"), ("u"), ("y"), none, 5, 0, []⟩, ⟨("5"), ("u"), ("x"), none, 5, 0, []⟩])
      (List.mem_singleton.mpr rfl)).1
  simp at h2

theorem repr_ne_of_lt {t now : Nat} (h : t < now) : Nat.repr t ≠ Nat.repr now :=
  fun he => absurd (natRepr_injective he) (Nat.ne_of_lt h)

theorem idsOK_mono {b b' : Nat} (hbb : b ≤ b') {s : ServerState} (h : IdsOK b s) :
    IdsOK b' s := by
  intro e he
  obtain ⟨⟨h1, h2⟩, h3⟩ := h e he
  refine ⟨⟨h1, ?_⟩, ?_⟩
  · intro i hi
    obtain ⟨t, ht, rfl⟩ := h2 i hi
    exact ⟨t, by omega, rfl⟩
  · intro c hc
    obtain ⟨h4, h5⟩ := h3 c hc
    refine ⟨h4, ?_⟩
    intro i hi
    obtain ⟨t, ht, rfl⟩ := h5 i hi
    exact ⟨t, by omega, rfl⟩

theorem map_updateFirst (g : α → γ) (p : α → Bool) (f : α → α)
    (hf : ∀ x, g (f x) = g x) :
    ∀ l : List α, (updateFirst p f l).map g = l.map g := by
  intro l
  induction l with
  | nil => rfl
  | cons x xs ih =>
    unfold updateFirst
    split
    · simp [hf]
    · simp only [List.map_cons, ih]

theorem idsOK_thread {b : Nat} {s : ServerState} (h : IdsOK b s) (key : String) :
    ((((assocFind? s.comments key).getD []).map Comment.id).Pairwise (· ≠ ·) ∧
      ∀ i ∈ ((assocFind? s.comments key).getD []).map Comment.id,
        ∃ t, t < b ∧ i = Nat.repr t) ∧
    ∀ c ∈ (assocFind? s.comments key).getD [],
      (c.replies.map Reply.id).Pairwise (· ≠ ·) ∧
      ∀ i ∈ c.replies.map Reply.id, ∃ t, t < b ∧ i = Nat.repr t := by
  cases hf : assocFind? s.comments key with
  | none => simp
  | some q =>
    obtain ⟨k', hk⟩ := assocFind?_mem hf
    simpa using h (k', q) hk

theorem ids_cons_fresh {q q' : List Comment} {b now : Nat} (hb : b ≤ now)
    (hsub : q'.Sublist q)
    (hU : (q.map Comment.id).Pairwise (· ≠ ·))
    (hB : ∀ i ∈ q.map Comment.id, ∃ t, t < b ∧ i = Nat.repr t)
    (c : Comment) (hc : c.id = Nat.repr now) :
    ((c :: q').map Comment.id).Pairwise (· ≠ ·) ∧
    ∀ i ∈ (c :: q').map Comment.id, ∃ t, t < now + 1 ∧ i = Nat.repr t := by
  have hsubm := hsub.map Comment.id
  constructor
  · rw [List.map_cons, List.pairwise_cons]
    refine ⟨?_, hU.sublist hsubm⟩
    intro i hi
    obtain ⟨t, ht, rfl⟩ := hB i (hsubm.mem hi)
    rw [hc]
    exact (repr_ne_of_lt (by omega)).symm
  · intro i hi
    rw [List.map_cons] at hi
    rcases List.mem_cons.mp hi with rfl | hi2
    · exact ⟨now, by omega, hc⟩
    · obtain ⟨t, ht, rfl⟩ := hB i (hsubm.mem hi2)
      exact ⟨t, by omega, rfl⟩

theorem ids_append_fresh {q q' : List Reply} {b now : Nat} (hb : b ≤ now)
    (hsub : q'.Sublist q)
    (hU : (q.map Reply.id).Pairwise (· ≠ ·))
    (hB : ∀ i ∈ q.map Reply.id, ∃ t, t < b ∧ i = Nat.repr t)
    (r : Reply) (hr : r.id = Nat.repr now) :
    ((q' ++ [r]).map Reply.id).Pairwise (· ≠ ·) ∧
    ∀ i ∈ (q' ++ [r]).map Reply.id, ∃ t, t < now + 1 ∧ i = Nat.repr t := by
  have hsubm := hsub.map Reply.id
  constructor
  · rw [List.map_append, List.pairwise_append]
    refine ⟨hU.sublist hsubm, List.pairwise_singleton _ _, ?_⟩
    intro i hi j hj
    rw [List.map_singleton, List.mem_singleton] at hj
    subst hj
    obtain ⟨t, ht, rfl⟩ := hB i (hsubm.mem hi)
    rw [hr]
    exact repr_ne_of_lt (by omega)
  · intro i hi
    rw [List.map_append] at hi
    rcases List.mem_append.mp hi with hi2 | hi2
    · obtain ⟨t, ht, rfl⟩ := hB i (hsubm.mem hi2)
      exact ⟨t, by omega, rfl⟩
    · rw [List.map_singleton, List.mem_singleton] at hi2
      subst hi2
      exact ⟨now, by omega, hr⟩

theorem idsOK_postComment {b : Nat} (s : ServerState) (m ch ip : String)
    (body : CommentRequest) (now : Nat) (h : IdsOK b s) (hb : b ≤ now) :
    IdsOK (now + 1) (postComment s m ch ip body now).2 := by
  by_cases h1 : (rateLimit ((assocFind? s.requestTracker ip).getD []) now).1 = true
  · by_cases h2 : cleanInput body.text MAX_TEXT_LENGTH = ""
    · rw [postComment_emptyText s m ch ip body now h1 h2]
      exact idsOK_mono (by omega) h
    · by_cases h3 : cleanInput body.username MAX_USERNAME_LENGTH = ""
      · rw [postComment_emptyUsername s m ch ip body now h1 h2 h3]
        exact idsOK_mono (by omega) h
      · rw [postComment_valid s m ch ip body now h1 h2 h3]
        intro e he
        rcases mem_assocSet _ he with rfl | he2
        · obtain ⟨⟨hU, hB⟩, hrep⟩ := idsOK_thread h (makeKey m ch)
          have hsub : (if MAX_COMMENTS_PER_CHAPTER ≤
              ((assocFind? s.comments (makeKey m ch)).getD []).length then
                ((assocFind? s.comments (makeKey m ch)).getD []).dropLast
              else (assocFind? s.comments (makeKey m ch)).getD []).Sublist
              ((assocFind? s.comments (makeKey m ch)).getD []) := by
            split
            · exact List.dropLast_sublist _
            · exact List.Sublist.refl _
          refine ⟨ids_cons_fresh hb hsub hU hB (mkNewComment body now) rfl, ?_⟩
          intro c hc
          rcases mem_insertComment hc with rfl | hc2
          · exact ⟨by simp [mkNewComment], by simp [mkNewComment]⟩
          · obtain ⟨h4, h5⟩ := hrep c hc2
            refine ⟨h4, ?_⟩
            intro i hi
            obtain ⟨t, ht, rfl⟩ := h5 i hi
            exact ⟨t, by omega, rfl⟩
        · exact idsOK_mono (by omega) h e he2
  · rw [postComment_rejected s m ch ip body now (by simpa using h1)]
    exact idsOK_mono (by omega) h

theorem idsOK_postReply {b : Nat} (s : ServerState) (m ch cid ip : String)
    (body : ReplyRequest) (now : Nat) (h : IdsOK b s) (hb : b ≤ now) :
    IdsOK (now + 1) (postReply s m ch cid ip body now).2 := by
  by_cases h1 : (rateLimit ((assocFind? s.requestTracker ip).getD []) now).1 = true
  · by_cases hv : cleanInput body.text MAX_TEXT_LENGTH = "" ∨
        cleanInput body.username MAX_USERNAME_LENGTH = ""
    · rw [postReply_invalid s m ch cid ip body now h1 hv]
      exact idsOK_mono (by omega) h
    · push_neg at hv
      obtain ⟨h2, h3⟩ := hv
      cases hf : assocFind? s.comments (makeKey m ch) with
      | none =>
        rw [postReply_keyMissing s m ch cid ip body now h1 h2 h3 hf]
        exact idsOK_mono (by omega) h
      | some q =>
        cases hc : q.find? (fun c => c.id == cid) with
        | none =>
          rw [postReply_commentMissing s m ch cid ip body now q h1 h2 h3 hf hc]
          exact idsOK_mono (by omega) h
        | some c0 =>
          rw [postReply_valid s m ch cid ip body now q c0 h1 h2 h3 hf hc]
          intro e he
          rcases mem_assocSet _ he with rfl | he2
          · obtain ⟨k', hk⟩ := assocFind?_mem hf
            obtain ⟨⟨hU, hB⟩, hrep⟩ := h (k', q) hk
            constructor
            · show ((updateFirst _ _ q).map Comment.id).Pairwise (· ≠ ·) ∧ _
              rw [map_updateFirst Comment.id (fun c => c.id == cid)
                (fun c => { c with replies := insertReply c.replies (mkNewReply body now) })
                (fun x => rfl)]
              refine ⟨hU, ?_⟩
              intro i hi
              obtain ⟨t, ht, rfl⟩ := hB i hi
              exact ⟨t, by omega, rfl⟩
            · intro c hcmem
              rcases mem_updateFirst hcmem with hold | ⟨y, hy, rfl⟩
              · obtain ⟨h4, h5⟩ := hrep c hold
                refine ⟨h4, ?_⟩
                intro i hi
                obtain ⟨t, ht, rfl⟩ := h5 i hi
                exact ⟨t, by omega, rfl⟩
              · obtain ⟨h4, h5⟩ := hrep y hy
                have hsub : (if MAX_REPLIES_PER_COMMENT ≤ y.replies.length then
                    y.replies.drop 1 else y.replies).Sublist y.replies := by
                  split
                  · exact List.drop_sublist 1 y.replies
                  · exact List.Sublist.refl _
                exact ids_append_fresh hb hsub h4 h5 (mkNewReply body now) rfl
          · exact idsOK_mono (by omega) h e he2
  · rw [postReply_rejected s m ch cid ip body now (by simpa using h1)]
    exact idsOK_mono (by omega) h

theorem idsOK_like {b : Nat} (s : ServerState) (m ch cid : String) (h : IdsOK b s) :
    IdsOK b (likeComment s m ch cid).2 := by
  cases hf : assocFind? s.comments (makeKey m ch) with
  | none =>
    rw [likeComment_keyMissing s m ch cid hf]
    exact h
  | some q =>
    cases hc : q.find? (fun c => c.id == cid) with
    | none =>
      rw [likeComment_commentMissing s m ch cid q hf hc]
      exact h
    | some c =>
      rw [likeComment_found s m ch cid q c hf hc]
      intro e he
      rcases mem_assocSet _ he with rfl | he2
      · obtain ⟨k', hk⟩ := assocFind?_mem hf
        obtain ⟨⟨hU, hB⟩, hrep⟩ := h (k', q) hk
        constructor
        · show ((updateFirst _ _ q).map Comment.id).Pairwise (· ≠ ·) ∧ _
          rw [map_updateFirst Comment.id (fun c => c.id == cid)
            (fun c => { c with likes := c.likes + 1 }) (fun x => rfl)]
          exact ⟨hU, hB⟩
        · intro c' hcmem
          rcases mem_updateFirst hcmem with hold | ⟨y, hy, rfl⟩
          · exact hrep c' hold
          · simpa using hrep y hy
      · exact h e he2

theorem idsOK_delete {b : Nat} (s : ServerState) (m ch cid : String) (h : IdsOK b s) :
    IdsOK b (deleteComment s m ch cid).2 := by
  cases hf : assocFind? s.comments (makeKey m ch) with
  | none =>
    rw [deleteComment_keyMissing s m ch cid hf]
    exact h
  | some q =>
    by_cases ha : q.any (fun c => c.id == cid)
    · rw [deleteComment_found s m ch cid q hf ha]
      intro e he
      rcases mem_assocSet _ he with rfl | he2
      · obtain ⟨k', hk⟩ := assocFind?_mem hf
        obtain ⟨⟨hU, hB⟩, hrep⟩ := h (k', q) hk
        have hsube : (q.eraseP (fun c => c.id == cid)).Sublist q := List.eraseP_sublist q
        have hsubm := hsube.map Comment.id
        refine ⟨⟨hU.sublist hsubm, ?_⟩, ?_⟩
        · intro i hi
          exact hB i (hsubm.mem hi)
        · intro c hcmem
          exact hrep c (hsube.mem hcmem)
      · exact h e he2
    · rw [deleteComment_commentMissing s m ch cid q hf (by simpa using ha)]
      exact h

theorem idsOK_runFrom : ∀ (ops : List Op) (b : Nat) (s : ServerState),
    IdsOK b s → ChronOps b ops → ∃ b2, IdsOK b2 (runFrom s ops) := by
  intro ops
  induction ops with
  | nil => intro b s h _; exact ⟨b, h⟩
  | cons op ops ih =>
    intro b s h hchron
    cases op with
    | getComments a c =>
      exact ih b s h hchron
    | getTrending =>
      exact ih b s h hchron
    | likeComment a c cid =>
      exact ih b (likeComment s a c cid).2 (idsOK_like s a c cid h) hchron
    | deleteComment a c cid =>
      exact ih b (deleteComment s a c cid).2 (idsOK_delete s a c cid h) hchron
    | postComment a c ip body now =>
      have hch : b ≤ now ∧ ChronOps (now + 1) ops := hchron
      exact ih (now + 1) (postComment s a c ip body now).2
        (idsOK_postComment s a c ip body now h hch.1) hch.2
    | postReply a c cid ip body now =>
      have hch : b ≤ now ∧ ChronOps (now + 1) ops := hchron
      exact ih (now + 1) (postReply s a c cid ip body now).2
        (idsOK_postReply s a c cid ip body now h hch.1) hch.2

/-- Claim C6 (amended): comment and reply ids are the decimal rendering of
the creating call's `Date.now()`, so within every comment queue and every
reply queue the ids are pairwise distinct provided the clock reading
strictly increases between write requests (in particular, ids can repeat
when two writes share a millisecond). -/
theorem c6_unique_ids (ops : List Op) (h : ChronOps 0 ops) : UniqueIds (run ops) := by
  obtain ⟨b2, hb⟩ := idsOK_runFrom ops 0 initialState
    (fun e he => absurd he (List.not_mem_nil e)) h
  intro e he
  obtain ⟨⟨h1, _⟩, h2⟩ := hb e he
  exact ⟨h1, fun c hc => (h2 c hc).1⟩

/-- Witness for claim C6's amended statement: two posts at strictly
increasing clock readings give a store with pairwise distinct ids. -/
theorem c6_witness :
    UniqueIds (run
      [Op.postComment ("a") ("1") ("ip") ⟨some ("u"), some ("x"), none⟩ 5,
       Op.postComment ("a") ("1") ("ip") ⟨some ("u"), some ("y"), none⟩ 7]) := by
  exact c6_unique_ids _ ⟨by omega, by omega, trivial⟩

end Manganext
